import Mathlib

/-!
Verification development for the groupwriter repository.

The repository is a collaborative document editor: a backend service keeps
Document and Image rows in a relational store (accessed through a Prisma-style
client) plus an object-storage bucket for encrypted image bytes.

This file embeds, shallowly:
  * the in-memory mock Prisma client of
    `backend/tests/helpers/mockPrisma.ts` (filter evaluator `matchesFilter`,
    ordering `applyOrderBy`, and the document/image delegates), translated
    from the source;
  * the document/image service layer and HTTP handlers, whose implementation
    files are not part of the sources at hand; those definitions are
    modelled from the spec, and each such definition says so in its
    doc comment.

JS `Date` values are embedded as integer millisecond timestamps.  JS strict
equality (`===`) between two distinct `Date` (or `Uint8Array`) objects is
reference equality and thus false for the freshly allocated objects the mock
store keeps, which is reflected in `jsEq` below.
-/

/-- A JS value as it occurs in the mock store's records and filters:
a string, `null`, a `Date` (as a millisecond timestamp), or a byte blob. -/
inductive Value where
  | vStr : String → Value
  | vNull : Value
  | vDate : Int → Value
  | vBytes : List Nat → Value
deriving DecidableEq, Repr

/-- JS strict equality (`===`) between a record field and a filter value.
Strings and `null` compare structurally; `Date` and `Uint8Array` objects
compare by reference, and the store's record objects are fresh allocations
never shared with a filter, so those comparisons are false. -/
def jsEq : Value → Value → Bool
  | .vStr a, .vStr b => a == b
  | .vNull, .vNull => true
  | _, _ => false

/-- A record as seen by the generic filter evaluator: an association list
from field name to value (mirrors JS property access `item[key]`). -/
abbrev Item := List (String × Value)

/-- JS property read `item[key]`; `none` stands for `undefined`. -/
def getField (it : Item) (k : String) : Option Value :=
  List.lookup k it

/-- `undefined !== v` holds for every modelled value `v`, so an absent field
never satisfies an equality filter. -/
def jsEqOpt : Option Value → Value → Bool
  | some x, v => jsEq x v
  | none, _ => false

/-- A field condition inside a `where` object, as distinguished by
`matchesFilter` in `mockPrisma.ts`: a `\x7blt: v\x7d` object, a `\x7bgt: v\x7d`
object, an `\x7bequals: v\x7d` object, or a direct value compared with `!==`. -/
inductive FieldCond where
  | ltD : Value → FieldCond
  | gtD : Value → FieldCond
  | eqObj : Value → FieldCond
  | eqV : Value → FieldCond
deriving DecidableEq, Repr

/-- One entry of a `where` object: an `AND` array of sub-filters, an `OR`
array, a `NOT` sub-filter, or a field key with a condition.  A whole `where`
object is a `List Clause`, matched as the conjunction of its entries. -/
inductive Clause where
  | andC : List (List Clause) → Clause
  | orC : List (List Clause) → Clause
  | notC : List Clause → Clause
  | field : String → FieldCond → Clause
deriving Repr

/-- Evaluation of a single field entry of a `where` object, translated from
the per-key body of `matchesFilter` in `mockPrisma.ts`: relation keys
(`images`, `document`) are skipped; an `lt`/`gt` object compares only when
both sides are `Date`s and otherwise matches; `equals` and direct values use
JS strict inequality to reject. -/
def evalFieldCond (it : Item) (k : String) : FieldCond → Bool
  | .ltD v =>
    if k == "images" || k == "document" then true
    else
      match v, getField it k with
      | .vDate dv, some (.vDate di) => decide (di < dv)
      | _, _ => true
  | .gtD v =>
    if k == "images" || k == "document" then true
    else
      match v, getField it k with
      | .vDate dv, some (.vDate di) => decide (di > dv)
      | _, _ => true
  | .eqObj v =>
    if k == "images" || k == "document" then true
    else jsEqOpt (getField it k) v
  | .eqV v =>
    if k == "images" || k == "document" then true
    else jsEqOpt (getField it k) v

mutual

/-- The entry loop of `matchesFilter` from `mockPrisma.ts`: every entry of
the `where` object must match. -/
def matchesEntries (it : Item) : List Clause → Bool
  | [] => true
  | c :: cs => matchesClause it c && matchesEntries it cs

/-- One entry of the `where` object, from `mockPrisma.ts`: `AND` requires
every sub-filter to match, `OR` some sub-filter, `NOT` the sub-filter to
fail, and a field key applies its condition. -/
def matchesClause (it : Item) : Clause → Bool
  | .andC ws => allWheres it ws
  | .orC ws => anyWheres it ws
  | .notC w => !(matchesEntries it w)
  | .field k cond => evalFieldCond it k cond

/-- `value.every((clause) => matchesFilter(item, clause))`. -/
def allWheres (it : Item) : List (List Clause) → Bool
  | [] => true
  | w :: ws => matchesEntries it w && allWheres it ws

/-- `value.some((clause) => matchesFilter(item, clause))`. -/
def anyWheres (it : Item) : List (List Clause) → Bool
  | [] => false
  | w :: ws => matchesEntries it w || anyWheres it ws

end

/-- `matchesFilter(item, where?)` from `mockPrisma.ts`: an absent (`none`)
filter matches everything, otherwise the entries are evaluated. -/
def matchesFilter (it : Item) : Option (List Clause) → Bool
  | none => true
  | some cs => matchesEntries it cs

example : matchesFilter [("id", .vStr "a")] none = true := by decide
example : matchesFilter [("id", .vStr "a")] (some []) = true := by decide
example :
    matchesFilter [("id", .vStr "a")]
      (some [Clause.field "id" (.eqV (.vStr "a"))]) = true := by decide
example :
    matchesFilter [("id", .vStr "a")]
      (some [Clause.field "id" (.eqV (.vStr "b"))]) = false := by decide
example :
    matchesFilter [("lastAccessedAt", .vDate 5)]
      (some [Clause.field "lastAccessedAt" (.ltD (.vDate 6))]) = true := by decide
example :
    matchesFilter [("lastAccessedAt", .vDate 6)]
      (some [Clause.field "lastAccessedAt" (.ltD (.vDate 6))]) = false := by decide
example :
    matchesFilter [("id", .vStr "a")]
      (some [Clause.notC [Clause.field "id" (.eqV (.vStr "a"))]]) = false := by decide

/-- A Document row of the store (schema fields as used by
`createDocument` in `mockPrisma.ts`); dates are millisecond timestamps. -/
structure Document where
  id : String
  modificationSecret : String
  ownerExternalId : Option String
  data : Option (List Nat)
  createdAt : Int
  updatedAt : Int
  lastAccessedAt : Int
deriving DecidableEq, Repr

/-- An Image row of the store (schema fields as used by `createImage` in
`mockPrisma.ts`). -/
structure Image where
  id : String
  name : String
  mimetype : String
  documentId : String
  createdAt : Int
  updatedAt : Int
deriving DecidableEq, Repr

/-- A Document as the generic filter evaluator sees it (JS property map). -/
def Document.toItem (d : Document) : Item :=
  [("id", .vStr d.id),
   ("modificationSecret", .vStr d.modificationSecret),
   ("ownerExternalId", match d.ownerExternalId with
     | some s => .vStr s
     | none => .vNull),
   ("data", match d.data with
     | some b => .vBytes b
     | none => .vNull),
   ("createdAt", .vDate d.createdAt),
   ("updatedAt", .vDate d.updatedAt),
   ("lastAccessedAt", .vDate d.lastAccessedAt)]

/-- An Image as the generic filter evaluator sees it. -/
def Image.toItem (i : Image) : Item :=
  [("id", .vStr i.id),
   ("name", .vStr i.name),
   ("mimetype", .vStr i.mimetype),
   ("documentId", .vStr i.documentId),
   ("createdAt", .vDate i.createdAt),
   ("updatedAt", .vDate i.updatedAt)]

/-- The two tables of the mock Prisma client
(`let documents: DocumentStore = []; let images: ImageStore = []`). -/
structure PrismaState where
  documents : List Document
  images : List Image
deriving DecidableEq, Repr

/-- `findIndex` followed by in-place assignment of `f x`, as one structural
pass: returns the updated element together with the updated list, or `none`
when no element matches. -/
def updateFirst (p : α → Bool) (f : α → α) : List α → Option (α × List α)
  | [] => none
  | x :: xs =>
    if p x then some (f x, f x :: xs)
    else (updateFirst p f xs).map (fun pr => (pr.1, x :: pr.2))

/-- `findIndex` followed by `splice(index, 1)`, as one structural pass:
returns the removed element together with the remaining list, or `none`
when no element matches. -/
def deleteFirst (p : α → Bool) : List α → Option (α × List α)
  | [] => none
  | x :: xs =>
    if p x then some (x, xs)
    else (deleteFirst p xs).map (fun pr => (pr.1, x :: pr.2))

/-- The list that remains after removing the first match (the list part of
`deleteFirst`, with the original list back when nothing matches). -/
def removeFirstMatch (p : α → Bool) : List α → List α
  | [] => []
  | x :: xs => if p x then xs else x :: removeFirstMatch p xs

/-- Partial update payload for a document row (`Partial<Document>` in
`mockPrisma.ts`); a present `updatedAt` is listed for completeness but the
spread order `\x7b...old, ...updateData, updatedAt: new Date()\x7d` means the
fresh timestamp always wins. -/
structure DocUpdateData where
  id : Option String := none
  modificationSecret : Option String := none
  ownerExternalId : Option (Option String) := none
  data : Option (Option (List Nat)) := none
  createdAt : Option Int := none
  updatedAt : Option Int := none
  lastAccessedAt : Option Int := none
deriving DecidableEq, Repr

/-- `\x7b ...documents[index], ...updateData, updatedAt: new Date() \x7d`:
supplied fields override the old row and `updatedAt` is always set to the
current time. -/
def applyDocUpdate (d : Document) (u : DocUpdateData) (now : Int) : Document :=
  { id := u.id.getD d.id,
    modificationSecret := u.modificationSecret.getD d.modificationSecret,
    ownerExternalId := u.ownerExternalId.getD d.ownerExternalId,
    data := u.data.getD d.data,
    createdAt := u.createdAt.getD d.createdAt,
    updatedAt := now,
    lastAccessedAt := u.lastAccessedAt.getD d.lastAccessedAt }

/-- Partial update payload for an image row (`Partial<Image>`). -/
structure ImgUpdateData where
  id : Option String := none
  name : Option String := none
  mimetype : Option String := none
  documentId : Option String := none
  createdAt : Option Int := none
  updatedAt : Option Int := none
deriving DecidableEq, Repr

/-- `\x7b ...images[index], ...updateData, updatedAt: new Date() \x7d`. -/
def applyImgUpdate (i : Image) (u : ImgUpdateData) (now : Int) : Image :=
  { id := u.id.getD i.id,
    name := u.name.getD i.name,
    mimetype := u.mimetype.getD i.mimetype,
    documentId := u.documentId.getD i.documentId,
    createdAt := u.createdAt.getD i.createdAt,
    updatedAt := now }

/-- `documentDelegate.findFirst` from `mockPrisma.ts` (without `include`). -/
def documentFindFirst (s : PrismaState) (w : Option (List Clause)) : Option Document :=
  s.documents.find? (fun d => matchesFilter d.toItem w)

/-- The comparator of `applyOrderBy` from `mockPrisma.ts`, as the sign of the
JS comparator result: `Date` fields compare by timestamp difference, string
fields by `localeCompare` (embedded as lexicographic order), anything else
reports 0. -/
def orderCmp (field dir : String) (a b : Item) : Int :=
  match getField a field, getField b field with
  | some (.vDate x), some (.vDate y) => if dir == "asc" then x - y else y - x
  | some (.vStr x), some (.vStr y) =>
    let c := fun u v : String =>
      match compare u v with
      | .lt => (-1 : Int)
      | .eq => 0
      | .gt => 1
    if dir == "asc" then c x y else c y x
  | _, _ => 0

/-- Stable insertion of `x` into `l` for a JS comparator: `x` moves past `y`
only when the comparator says `x` is strictly greater, which is how a stable
`Array.prototype.sort` places an earlier element among equals. -/
def stableInsert (cmp : α → α → Int) (x : α) : List α → List α
  | [] => [x]
  | y :: ys => if cmp x y > 0 then y :: stableInsert cmp x ys else x :: y :: ys

/-- A stable sort for a JS comparator (`Array.prototype.sort` is stable). -/
def stableSort (cmp : α → α → Int) (l : List α) : List α :=
  l.foldr (stableInsert cmp) []

/-- `applyOrderBy` from `mockPrisma.ts`, specialised to documents: the
(possibly plural) `orderBy` entries are processed in reverse, each as one
stable sort of the current result. -/
def applyOrderBy (items : List Document) :
    Option (List (String × String)) → List Document
  | none => items
  | some obs =>
    obs.reverse.foldl
      (fun acc fd => stableSort (fun a b => orderCmp fd.1 fd.2 a.toItem b.toItem) acc)
      items

/-- `documentDelegate.findMany` from `mockPrisma.ts` (without `include`). -/
def documentFindMany (s : PrismaState) (w : Option (List Clause))
    (ob : Option (List (String × String))) : List Document :=
  applyOrderBy (s.documents.filter (fun d => matchesFilter d.toItem w)) ob

/-- `documentDelegate.update` from `mockPrisma.ts`: the first row matching
the filter is merged with the payload (and `updatedAt` refreshed); with no
matching row the call throws `Record not found`. -/
def documentUpdate (s : PrismaState) (w : List Clause) (u : DocUpdateData)
    (now : Int) : Except String (Document × PrismaState) :=
  match updateFirst (fun d => matchesEntries d.toItem w)
      (fun d => applyDocUpdate d u now) s.documents with
  | none => .error "Record not found"
  | some pr => .ok (pr.1, { s with documents := pr.2 })

/-- `documentDelegate.delete` from `mockPrisma.ts`: removes the first row
matching the filter and returns it; with no matching row the call throws
`Record not found`. -/
def documentDelete (s : PrismaState) (w : List Clause) :
    Except String (Document × PrismaState) :=
  match deleteFirst (fun d => matchesEntries d.toItem w) s.documents with
  | none => .error "Record not found"
  | some pr => .ok (pr.1, { s with documents := pr.2 })

/-- `imageDelegate.findFirst` from `mockPrisma.ts`. -/
def imageFindFirst (s : PrismaState) (w : Option (List Clause)) : Option Image :=
  s.images.find? (fun i => matchesFilter i.toItem w)

/-- `imageDelegate.findMany` from `mockPrisma.ts`. -/
def imageFindMany (s : PrismaState) (w : Option (List Clause)) : List Image :=
  s.images.filter (fun i => matchesFilter i.toItem w)

/-- `imageDelegate.create` from `mockPrisma.ts`: pushes the new row. -/
def imageCreate (s : PrismaState) (img : Image) : Image × PrismaState :=
  (img, { s with images := s.images ++ [img] })

/-- `imageDelegate.update` from `mockPrisma.ts`. -/
def imageUpdate (s : PrismaState) (w : List Clause) (u : ImgUpdateData)
    (now : Int) : Except String (Image × PrismaState) :=
  match updateFirst (fun i => matchesEntries i.toItem w)
      (fun i => applyImgUpdate i u now) s.images with
  | none => .error "Record not found"
  | some pr => .ok (pr.1, { s with images := pr.2 })

/-- `imageDelegate.delete` from `mockPrisma.ts`. -/
def imageDelete (s : PrismaState) (w : List Clause) :
    Except String (Image × PrismaState) :=
  match deleteFirst (fun i => matchesEntries i.toItem w) s.images with
  | none => .error "Record not found"
  | some pr => .ok (pr.1, { s with images := pr.2 })

/-- The `where` object `\x7b id \x7d` on the document table. -/
def docWhereId (id : String) : List Clause :=
  [Clause.field "id" (.eqV (.vStr id))]

/-- The `where` object `\x7b id \x7d` on the image table. -/
def imgWhereId (id : String) : List Clause :=
  [Clause.field "id" (.eqV (.vStr id))]

/-- The `where` object `\x7b documentId \x7d` on the image table. -/
def imgWhereDocumentId (docId : String) : List Clause :=
  [Clause.field "documentId" (.eqV (.vStr docId))]

/-- The `where` object `\x7b ownerExternalId \x7d` on the document table. -/
def docWhereOwner (o : String) : List Clause :=
  [Clause.field "ownerExternalId" (.eqV (.vStr o))]

/-- The `where` object `\x7b lastAccessedAt: \x7b lt: cutoff \x7d \x7d`. -/
def docWhereLastAccessedBefore (cutoff : Int) : List Clause :=
  [Clause.field "lastAccessedAt" (.ltD (.vDate cutoff))]

/-- Modelled from the spec: the well-formed-identifier check the document
service applies before lookups (the backend's id validator is not among the
sources at hand).  A well-formed identifier is UUID-shaped: 36 characters,
hyphens at positions 8, 13, 18 and 23, hexadecimal digits elsewhere. -/
def isValidUuid (s : String) : Bool :=
  let cs := s.toList
  let hex := fun c : Char =>
    c.isDigit || ('a' ≤ c && c ≤ 'f') || ('A' ≤ c && c ≤ 'F')
  cs.length == 36 &&
    (List.range 36).all (fun i =>
      if i == 8 || i == 13 || i == 18 || i == 23 then cs.getD i ' ' == '-'
      else hex (cs.getD i ' '))

/-- Modelled from the spec: `fetchDocument(id)` of the document service
(its implementation file is not among the sources at hand) "validates `id`
is a well-formed identifier (fails closed, returning not-found rather than
throwing, for malformed input); looks up by id; returns null if absent". -/
def fetchDocument (s : PrismaState) (id : String) : Option Document :=
  if isValidUuid id then documentFindFirst s (some (docWhereId id))
  else none

/-- Modelled from the spec: `isValidModificationSecret(id, secret)` of the
document service (implementation file not among the sources at hand)
"returns true only if a document with that id exists and its stored secret
equals the provided one; malformed id short-circuits to false". -/
def isValidModificationSecret (s : PrismaState) (id secret : String) : Bool :=
  if isValidUuid id then
    match documentFindFirst s (some (docWhereId id)) with
    | some d => d.modificationSecret == secret
    | none => false
  else false

/-- Modelled from the spec: `updateDocument(id, data)` of the document
service (implementation file not among the sources at hand) "fails (returns
falsy) for malformed id or missing document; otherwise overwrites `data` and
bumps updatedAt"; the row-not-found error of the persistence layer is caught
and surfaced as the falsy result. -/
def updateDocument (s : PrismaState) (id : String) (d : Option (List Nat))
    (now : Int) : Bool × PrismaState :=
  if isValidUuid id then
    match documentUpdate s (docWhereId id) { data := some d } now with
    | .ok pr => (true, pr.2)
    | .error _ => (false, s)
  else (false, s)

/-- Modelled from the spec: `updateLastAccessedAt(id)` of the document
service (implementation file not among the sources at hand) "sets
lastAccessedAt to now; returns falsy for unknown id", with malformed
identifiers failing soft like every lookup. -/
def updateLastAccessedAt (s : PrismaState) (id : String) (now : Int) :
    Bool × PrismaState :=
  if isValidUuid id then
    match documentUpdate s (docWhereId id) { lastAccessedAt := some now } now with
    | .ok pr => (true, pr.2)
    | .error _ => (false, s)
  else (false, s)

/-- Modelled from the spec: `getDocumentsByOwner(ownerExternalId)` of the
document service (implementation file not among the sources at hand)
"returns documents where ownerExternalId matches, ordered by creation time
ascending; returns empty list when ownerExternalId is null". -/
def getDocumentsByOwner (s : PrismaState) (owner : Option String) :
    List Document :=
  match owner with
  | none => []
  | some o => documentFindMany s (some (docWhereOwner o)) (some [("createdAt", "asc")])

/-- The object-storage bucket: keys (image ids) with the stored bytes. -/
abbrev Bucket := List (String × List Nat)

/-- Modelled from the spec: `deleteImageFromBucket` of `utils/s3`
(implementation file not among the sources at hand) deletes the
object stored under the image's key. -/
def deleteImageFromBucket (b : Bucket) (key : String) : Bucket :=
  b.filter (fun e => !(e.1 == key))

/-- The store plus the object-storage bucket, the state the service layer
and HTTP handlers act on. -/
structure AppState where
  db : PrismaState
  bucket : Bucket
deriving DecidableEq, Repr

/-- Modelled from the spec: `deleteImage` of the image service
(implementation file not among the sources at hand) "deletes the Image row;
returns the deleted record or fails if not found". -/
def deleteImage (s : PrismaState) (imageId : String) :
    Except String (Image × PrismaState) :=
  imageDelete s (imgWhereId imageId)

/-- Modelled from the spec: one step of the image cascade — the image row is
deleted through the image service and its backing object removed from the
bucket (a row the service cannot find is skipped, for sweeper idempotence). -/
def cascadeImageStep (acc : AppState) (img : Image) : AppState :=
  let db2 := match deleteImage acc.db img.id with
    | .ok pr => pr.2
    | .error _ => acc.db
  { db := db2, bucket := deleteImageFromBucket acc.bucket img.id }

/-- Modelled from the spec: the cascade shared by `deleteDocument` and the
retention sweeper (implementation file not among the sources at hand): the
document's images are listed, each is deleted through the image service and
its backing object removed from the bucket, then the document row is
deleted. -/
def cascadeDeleteDocument (st : AppState) (docId : String) : AppState :=
  let children := imageFindMany st.db (some (imgWhereDocumentId docId))
  let st1 := children.foldl cascadeImageStep st
  let db3 := match documentDelete st1.db (docWhereId docId) with
    | .ok pr => pr.2
    | .error _ => st1.db
  { db := db3, bucket := st1.bucket }

/-- Modelled from the spec: `deleteDocument(id, modificationSecret)` of the
document service (implementation file not among the sources at hand)
"validates secret first; on match, deletes all child Images (invoking Image
Service delete, which cascades to object storage) before deleting the
Document row; returns true on success, false if id unknown or secret
mismatched". -/
def deleteDocument (st : AppState) (id secret : String) : Bool × AppState :=
  match st.db.documents.find? (fun d => d.id == id) with
  | none => (false, st)
  | some d =>
    if d.modificationSecret == secret then (true, cascadeDeleteDocument st id)
    else (false, st)

/-- Modelled from the spec: `deleteOldDocuments` of the retention sweeper
(implementation file not among the sources at hand) "finds all documents
with lastAccessedAt older than a configured cutoff, deletes each (cascading
images and their backing objects), independent of modification secret". -/
def deleteOldDocuments (st : AppState) (cutoff : Int) : AppState :=
  let old := documentFindMany st.db (some (docWhereLastAccessedBefore cutoff)) none
  old.foldl (fun acc d => cascadeDeleteDocument acc d.id) st

/-- The extension of a filename: the characters after its last dot
(`none` when the name has no dot). -/
def extSuffix : List Char → Option (List Char)
  | [] => none
  | c :: cs =>
    match extSuffix cs with
    | some e => some e
    | none => if c == '.' then some cs else none

/-- Modelled from the spec: the "fixed base name plus the original
extension" naming rule of `createImage`; dot included, mirroring
`path.extname`-style suffixes. -/
def extOf (s : String) : String :=
  match extSuffix s.toList with
  | some e => String.mk ('.' :: e)
  | none => ""

example : extOf "test.png" = ".png" := by decide
example : extOf "a.b.png" = ".png" := by decide
example : extOf "noext" = "" := by decide

/-- Modelled from the spec: `createImage(documentId, mimetype, originalName)`
of the image service (implementation file not among the sources at hand)
"generates a new id; derives a normalized stored name as a fixed base name
plus the original extension; persists the row; returns it".  The test suite
fixes the base name: an original `test.png` is stored as `image.png`.  The
fresh id and current time are passed in explicitly. -/
def createImage (s : PrismaState) (documentId mimetype original : String)
    (now : Int) (freshId : String) : Image × PrismaState :=
  imageCreate s
    { id := freshId,
      name := "image" ++ extOf original,
      mimetype := mimetype,
      documentId := documentId,
      createdAt := now,
      updatedAt := now }

/-- An HTTP response as the handlers build it: status code, headers, a JSON
or path body, and binary body bytes for image retrieval. -/
structure HttpResponse where
  status : Nat
  headers : List (String × String)
  body : String
  bodyBytes : List Nat
deriving DecidableEq, Repr

/-- A parsed multipart upload (the fields formidable yields). -/
structure UploadFile where
  mimetype : String
  originalFilename : String
  bytes : List Nat
deriving DecidableEq, Repr

/-- Modelled from the spec: the upload-image handler of `httpHandler`
(implementation file not among the sources at hand; only its tests are)
"requires id + modificationSecret; validates secret before accepting the
multipart upload; 200 with the stored path on success; 403 if secret invalid
(and rejects/aborts the stream without persisting)". -/
def handleUploadImageRequest (st : AppState) (id secret : String)
    (file : UploadFile) (now : Int) (freshId : String) :
    HttpResponse × AppState :=
  if isValidModificationSecret st.db id secret then
    let pr := createImage st.db id file.mimetype file.originalFilename now freshId
    ({ status := 200, headers := [], body := "images/" ++ pr.1.id, bodyBytes := [] },
     { db := pr.2, bucket := st.bucket ++ [(pr.1.id, file.bytes)] })
  else
    ({ status := 403, headers := [], body := "", bodyBytes := [] }, st)

/-- Modelled from the spec: `getImage(id)` of the image service
(implementation file not among the sources at hand) "returns null for
undefined/malformed id or not-found; otherwise the Image row". -/
def getImage (s : PrismaState) (id : Option String) : Option Image :=
  match id with
  | none => none
  | some i =>
    if isValidUuid i then imageFindFirst s (some (imgWhereId i)) else none

/-- Modelled from the spec: the get-image handler of `httpHandler`
(implementation file not among the sources at hand; only its tests are)
answers "200 with binary content, Content-Type set to stored mimetype,
Content-Disposition: inline; filename=<name>", the bytes being the
decrypted object for the image's key. -/
def handleGetImageRequest (st : AppState) (imageId : Option String) :
    HttpResponse :=
  match getImage st.db imageId with
  | none => { status := 404, headers := [], body := "", bodyBytes := [] }
  | some img =>
    match st.bucket.lookup img.id with
    | some bytes =>
      { status := 200,
        headers := [("Content-Type", img.mimetype),
                    ("Content-Disposition", "inline; filename=" ++ img.name)],
        body := "",
        bodyBytes := bytes }
    | none => { status := 500, headers := [], body := "", bodyBytes := [] }

section FilterLemmas

/-- The `\x7b id \x7d` filter on a document row tests its id. -/
theorem matchesEntries_docWhereId (d : Document) (i : String) :
    matchesEntries d.toItem (docWhereId i) = (d.id == i) := by
  simp [docWhereId, matchesEntries, matchesClause, evalFieldCond, getField,
    Document.toItem, jsEqOpt, jsEq, List.lookup]

/-- The `\x7b id \x7d` filter on an image row tests its id. -/
theorem matchesEntries_imgWhereId (im : Image) (i : String) :
    matchesEntries im.toItem (imgWhereId i) = (im.id == i) := by
  simp [imgWhereId, matchesEntries, matchesClause, evalFieldCond, getField,
    Image.toItem, jsEqOpt, jsEq, List.lookup]

/-- The `\x7b documentId \x7d` filter on an image row tests its owning
document. -/
theorem matchesEntries_imgWhereDocumentId (im : Image) (k : String) :
    matchesEntries im.toItem (imgWhereDocumentId k) = (im.documentId == k) := by
  simp [imgWhereDocumentId, matchesEntries, matchesClause, evalFieldCond,
    getField, Image.toItem, jsEqOpt, jsEq, List.lookup]

/-- The `\x7b ownerExternalId \x7d` filter on a document row tests its owner
(a null owner field never equals a string filter value). -/
theorem matchesEntries_docWhereOwner (d : Document) (o : String) :
    matchesEntries d.toItem (docWhereOwner o) = (d.ownerExternalId == some o) := by
  cases h : d.ownerExternalId with
  | none =>
    simp [docWhereOwner, matchesEntries, matchesClause, evalFieldCond,
      getField, Document.toItem, jsEqOpt, jsEq, h, List.lookup]
  | some s =>
    simp [docWhereOwner, matchesEntries, matchesClause, evalFieldCond,
      getField, Document.toItem, jsEqOpt, jsEq, h, List.lookup]

/-- The `\x7b lastAccessedAt: \x7b lt: cutoff \x7d \x7d` filter on a document
row is the strict timestamp comparison. -/
theorem matchesEntries_docWhereLastAccessedBefore (d : Document) (c : Int) :
    matchesEntries d.toItem (docWhereLastAccessedBefore c) =
      decide (d.lastAccessedAt < c) := by
  simp [docWhereLastAccessedBefore, matchesEntries, matchesClause,
    evalFieldCond, getField, Document.toItem, List.lookup]

end FilterLemmas

section FirstMatchLemmas

variable {α : Type}

/-- `deleteFirst` finds nothing when no element matches. -/
theorem deleteFirst_eq_none {p : α → Bool} {l : List α}
    (h : ∀ x ∈ l, p x = false) : deleteFirst p l = none := by
  induction l with
  | nil => rfl
  | cons x xs ih =>
    have hx : p x = false := h x (List.mem_cons_self x xs)
    simp [deleteFirst, hx, ih (fun y hy => h y (List.mem_cons_of_mem x hy))]

/-- `updateFirst` finds nothing when no element matches. -/
theorem updateFirst_eq_none {p : α → Bool} {f : α → α} {l : List α}
    (h : ∀ x ∈ l, p x = false) : updateFirst p f l = none := by
  induction l with
  | nil => rfl
  | cons x xs ih =>
    have hx : p x = false := h x (List.mem_cons_self x xs)
    simp [updateFirst, hx, ih (fun y hy => h y (List.mem_cons_of_mem x hy))]

/-- A failed `deleteFirst` leaves nothing to remove. -/
theorem removeFirstMatch_of_none {p : α → Bool} {l : List α}
    (h : deleteFirst p l = none) : removeFirstMatch p l = l := by
  induction l with
  | nil => rfl
  | cons x xs ih =>
    by_cases hx : p x = true
    · simp [deleteFirst, hx] at h
    · have hx' : p x = false := by
        cases hpx : p x
        · rfl
        · exact absurd hpx hx
      simp [deleteFirst, hx'] at h
      simp [removeFirstMatch, hx', ih h]

/-- The list part of a successful `deleteFirst` is `removeFirstMatch`. -/
theorem deleteFirst_snd {p : α → Bool} {l : List α} {pr : α × List α}
    (h : deleteFirst p l = some pr) : pr.2 = removeFirstMatch p l := by
  induction l generalizing pr with
  | nil => simp [deleteFirst] at h
  | cons x xs ih =>
    by_cases hx : p x = true
    · simp [deleteFirst, hx] at h
      simp [removeFirstMatch, hx, ← h]
    · have hx' : p x = false := by
        cases hpx : p x
        · rfl
        · exact absurd hpx hx
      cases hrec : deleteFirst p xs with
      | none => simp [deleteFirst, hx', hrec] at h
      | some q =>
        simp [deleteFirst, hx', hrec] at h
        simp [removeFirstMatch, hx', ← h, ih hrec]

/-- `updateFirst` on a list whose first match is exposed as
`pre ++ d :: post`: the match is rewritten in place, everything else kept. -/
theorem updateFirst_append {p : α → Bool} {f : α → α} (pre : List α)
    (d : α) (post : List α) (hpre : ∀ x ∈ pre, p x = false)
    (hd : p d = true) :
    updateFirst p f (pre ++ d :: post) = some (f d, pre ++ f d :: post) := by
  induction pre with
  | nil => simp [updateFirst, hd]
  | cons x xs ih =>
    have hx : p x = false := hpre x (List.mem_cons_self x xs)
    simp [updateFirst, hx,
      ih (fun y hy => hpre y (List.mem_cons_of_mem x hy))]

/-- Removing the first element carrying a given key removes the only such
element when keys are unique. -/
theorem removeFirstMatch_eq_filter (key : α → String) (k : String)
    {l : List α} (hnd : (l.map key).Nodup) :
    removeFirstMatch (fun x => key x == k) l =
      l.filter (fun x => !(key x == k)) := by
  induction l with
  | nil => rfl
  | cons x xs ih =>
    simp only [List.map_cons, List.nodup_cons] at hnd
    obtain ⟨hx, hxs⟩ := hnd
    by_cases hk : (key x == k) = true
    · have hkeq : key x = k := beq_iff_eq.mp hk
      have hrest : xs.filter (fun y => !(key y == k)) = xs := by
        rw [List.filter_eq_self]
        intro y hy
        have hne : key y ≠ k := by
          intro hyk
          apply hx
          rw [hkeq, ← hyk]
          exact List.mem_map_of_mem key hy
        simp [hne]
      simp [removeFirstMatch, hk, List.filter_cons, hrest]
    · have hk' : (key x == k) = false := by
        cases hkk : (key x == k)
        · rfl
        · exact absurd hkk hk
      simp [removeFirstMatch, hk', List.filter_cons, ih hxs]

end FirstMatchLemmas

/-- Example rows used by concrete witnesses. -/
def docA : Document :=
  { id := "6f9619ff-8b86-d011-b42d-00c04fc964ff", modificationSecret := "s1",
    ownerExternalId := some "owner-1", data := none,
    createdAt := 0, updatedAt := 0, lastAccessedAt := 0 }

/-- Example image row used by concrete witnesses. -/
def imgA : Image :=
  { id := "aaaaaaaa-bbbb-cccc-dddd-eeeeeeeeeeee", name := "image.png",
    mimetype := "image/png", documentId := "6f9619ff-8b86-d011-b42d-00c04fc964ff",
    createdAt := 0, updatedAt := 0 }

/-- C8: for every store state and every update or delete invocation (on the
document or image table) whose filter matches no existing row, the
persistence operation raises the `Record not found` error instead of
returning a value; the `Except.error` result carries no successor state, so
the store value the caller holds is unchanged by the failed call. -/
theorem c8_update_delete_record_not_found (s : PrismaState)
    (wd wi : List Clause) (u : DocUpdateData) (v : ImgUpdateData) (now : Int)
    (hdoc : ∀ d ∈ s.documents, matchesEntries d.toItem wd = false)
    (himg : ∀ i ∈ s.images, matchesEntries i.toItem wi = false) :
    documentUpdate s wd u now = .error "Record not found"
    ∧ documentDelete s wd = .error "Record not found"
    ∧ imageUpdate s wi v now = .error "Record not found"
    ∧ imageDelete s wi = .error "Record not found" := by
  refine ⟨?_, ?_, ?_, ?_⟩
  · rw [documentUpdate, updateFirst_eq_none (fun x hx => hdoc x hx)]
  · rw [documentDelete, deleteFirst_eq_none (fun x hx => hdoc x hx)]
  · rw [imageUpdate, updateFirst_eq_none (fun x hx => himg x hx)]
  · rw [imageDelete, deleteFirst_eq_none (fun x hx => himg x hx)]

/-- Witness for C8 at a concrete one-row store and non-matching id filters. -/
theorem c8_update_delete_record_not_found_witness :
    (∀ d ∈ ({ documents := [docA], images := [imgA] } : PrismaState).documents,
        matchesEntries d.toItem (docWhereId "missing") = false)
    ∧ documentUpdate { documents := [docA], images := [imgA] }
        (docWhereId "missing") {} 5 = .error "Record not found" :=
  ⟨by decide,
    (c8_update_delete_record_not_found { documents := [docA], images := [imgA] }
      (docWhereId "missing") (imgWhereId "missing") {} {} 5
      (by decide) (by decide)).1⟩

/-- C10: a document update whose filter matches some row rewrites only the
first matching row, merging the supplied fields and stamping `updatedAt`
with the current time; every other document row and the whole image table
are unchanged. -/
theorem c10_document_update_frame (s : PrismaState) (w : List Clause)
    (u : DocUpdateData) (now : Int) (pre : List Document) (d : Document)
    (post : List Document)
    (hsplit : s.documents = pre ++ d :: post)
    (hpre : ∀ x ∈ pre, matchesEntries x.toItem w = false)
    (hd : matchesEntries d.toItem w = true) :
    documentUpdate s w u now =
      .ok (applyDocUpdate d u now,
        { documents := pre ++ applyDocUpdate d u now :: post,
          images := s.images })
    ∧ (applyDocUpdate d u now).updatedAt = now := by
  constructor
  · rw [documentUpdate, hsplit, updateFirst_append pre d post hpre hd]
  · rfl

/-- Witness for C10 at a concrete two-row store whose second row matches. -/
theorem c10_document_update_frame_witness :
    (matchesEntries docA.toItem (docWhereId docA.id) = true)
    ∧ documentUpdate
        { documents := [{ docA with id := "other" }, docA], images := [imgA] }
        (docWhereId docA.id) { data := some (some [7]) } 9 =
      .ok (applyDocUpdate docA { data := some (some [7]) } 9,
        { documents := [{ docA with id := "other" },
            applyDocUpdate docA { data := some (some [7]) } 9],
          images := [imgA] }) :=
  ⟨by decide,
    (c10_document_update_frame
      { documents := [{ docA with id := "other" }, docA], images := [imgA] }
      (docWhereId docA.id) { data := some (some [7]) } 9
      [{ docA with id := "other" }] docA [] rfl (by decide) (by decide)).1⟩

section CascadeLemmas

/-- An image-service delete whose error is swallowed removes the first (and,
with unique ids, only) row with that id and nothing else. -/
theorem deleteImage_soft (s : PrismaState) (imageId : String) :
    (match deleteImage s imageId with
      | .ok pr => pr.2
      | .error _ => s) =
    { s with images := removeFirstMatch (fun i => i.id == imageId) s.images } := by
  unfold deleteImage imageDelete
  have hfun : (fun i : Image => matchesEntries i.toItem (imgWhereId imageId)) =
      (fun i : Image => i.id == imageId) :=
    funext fun i => matchesEntries_imgWhereId i imageId
  rw [hfun]
  cases hdf : deleteFirst (fun i : Image => i.id == imageId) s.images with
  | none => simp [removeFirstMatch_of_none hdf]
  | some pr => simp [← deleteFirst_snd hdf]

/-- A document delete whose error is swallowed removes the first row with
that id and nothing else. -/
theorem documentDelete_soft (s : PrismaState) (docId : String) :
    (match documentDelete s (docWhereId docId) with
      | .ok pr => pr.2
      | .error _ => s) =
    { s with documents :=
        removeFirstMatch (fun d => d.id == docId) s.documents } := by
  unfold documentDelete
  have hfun : (fun d : Document => matchesEntries d.toItem (docWhereId docId)) =
      (fun d : Document => d.id == docId) :=
    funext fun d => matchesEntries_docWhereId d docId
  rw [hfun]
  cases hdf : deleteFirst (fun d : Document => d.id == docId) s.documents with
  | none => simp [removeFirstMatch_of_none hdf]
  | some pr => simp [← deleteFirst_snd hdf]

/-- One image-cascade step, characterised on the state. -/
theorem cascadeImageStep_spec (acc : AppState) (img : Image) :
    cascadeImageStep acc img =
      { db := { documents := acc.db.documents,
                images := removeFirstMatch (fun i => i.id == img.id) acc.db.images },
        bucket := acc.bucket.filter (fun e => !(e.1 == img.id)) } := by
  unfold cascadeImageStep deleteImageFromBucket
  rw [deleteImage_soft]

end CascadeLemmas

/-- Folding the image cascade over a list of images removes exactly the rows
and bucket objects whose id occurs in that list (ids in the store being
unique). -/
theorem cascade_images_fold (chs : List Image) :
    ∀ st : AppState, (st.db.images.map Image.id).Nodup →
      chs.foldl cascadeImageStep st =
        { db := { documents := st.db.documents,
                  images := st.db.images.filter
                    (fun i => !((chs.map Image.id).contains i.id)) },
          bucket := st.bucket.filter
            (fun e => !((chs.map Image.id).contains e.1)) } := by
  induction chs with
  | nil =>
    intro st hi
    simp
  | cons c cs ih =>
    intro st hi
    rw [List.foldl_cons, cascadeImageStep_spec,
      removeFirstMatch_eq_filter Image.id c.id hi]
    have hi1 : (((st.db.images.filter (fun i => !(i.id == c.id))).map Image.id)).Nodup :=
      List.Nodup.sublist (List.Sublist.map Image.id (List.filter_sublist _)) hi
    rw [ih _ hi1]
    simp only [List.map_cons]
    congr 1
    · congr 1
      rw [List.filter_filter]
      apply List.filter_congr
      intro x hx
      have hb : (x.id == c.id) = decide (x.id = c.id) := by
        by_cases h : x.id = c.id <;> simp [h]
      simp [List.contains_cons, Bool.not_or, Bool.and_comm, hb]
    · rw [List.filter_filter]
      apply List.filter_congr
      intro e he
      have hb : (e.1 == c.id) = decide (e.1 = c.id) := by
        by_cases h : e.1 = c.id <;> simp [h]
      simp [List.contains_cons, Bool.not_or, Bool.and_comm, hb]

/-- Two booleans agreeing as propositions are equal. -/
theorem bool_eq_of_iff {a b : Bool} (h : a = true ↔ b = true) : a = b := by
  cases a <;> cases b <;> simp_all

/-- The document cascade, characterised on the state: with unique image ids
it removes the first document row with the given id, every image row whose
`documentId` references it, and every bucket object belonging to one of
those images. -/
theorem cascadeDeleteDocument_spec (st : AppState) (docId : String)
    (hi : (st.db.images.map Image.id).Nodup) :
    cascadeDeleteDocument st docId =
      { db := { documents :=
                  removeFirstMatch (fun d => d.id == docId) st.db.documents,
                images := st.db.images.filter
                  (fun i => !(i.documentId == docId)) },
        bucket := st.bucket.filter
          (fun e => !(st.db.images.any
            (fun i => i.documentId == docId && i.id == e.1))) } := by
  unfold cascadeDeleteDocument
  have hch : imageFindMany st.db (some (imgWhereDocumentId docId)) =
      st.db.images.filter (fun i => i.documentId == docId) := by
    unfold imageFindMany
    apply List.filter_congr
    intro i _
    simp [matchesFilter, matchesEntries_imgWhereDocumentId]
  rw [hch]
  dsimp only
  rw [cascade_images_fold _ _ hi, documentDelete_soft]
  congr 1
  · congr 1
    apply List.filter_congr
    intro i him
    apply congrArg
    apply bool_eq_of_iff
    constructor
    · intro hc
      have hmem : i.id ∈ (st.db.images.filter
          (fun j => j.documentId == docId)).map Image.id := by
        simpa using hc
      obtain ⟨j, hjmem, hjid⟩ := List.mem_map.mp hmem
      obtain ⟨hjim, hjdoc⟩ := List.mem_filter.mp hjmem
      have hji : j = i := List.inj_on_of_nodup_map hi hjim him hjid
      rw [← hji]
      exact hjdoc
    · intro hdoc
      have hmem : i.id ∈ (st.db.images.filter
          (fun j => j.documentId == docId)).map Image.id :=
        List.mem_map_of_mem Image.id (List.mem_filter.mpr ⟨him, hdoc⟩)
      simpa using hmem
  · apply List.filter_congr
    intro e he
    apply congrArg
    apply bool_eq_of_iff
    constructor
    · intro hc
      have hmem : e.1 ∈ (st.db.images.filter
          (fun j => j.documentId == docId)).map Image.id := by
        simpa using hc
      obtain ⟨j, hjmem, hjid⟩ := List.mem_map.mp hmem
      obtain ⟨hjim, hjdoc⟩ := List.mem_filter.mp hjmem
      rw [List.any_eq_true]
      exact ⟨j, hjim, by simp [hjdoc, hjid]⟩
    · intro hany
      obtain ⟨j, hjim, hj⟩ := List.any_eq_true.mp hany
      have hj2 : j.documentId = docId ∧ j.id = e.1 := by simpa using hj
      have hjdoc : (j.documentId == docId) = true := by simp [hj2.1]
      have hjid : j.id = e.1 := hj2.2
      have hmem : e.1 ∈ (st.db.images.filter
          (fun x => x.documentId == docId)).map Image.id := by
        rw [← hjid]
        exact List.mem_map_of_mem Image.id (List.mem_filter.mpr ⟨hjim, hjdoc⟩)
      simpa using hmem

/-- C1: `deleteDocument(id, secret)` returns true and removes the document
row — first deleting all its child Images, cascading to their object-storage
entries — iff a document with that id exists whose stored
`modificationSecret` equals the supplied secret; for any unknown id or
mismatched secret it returns false and leaves the whole state unchanged.
(Ids are row keys, so both tables are assumed key-unique.) -/
theorem c1_deleteDocument_spec (st : AppState) (id secret : String)
    (hd : (st.db.documents.map Document.id).Nodup)
    (hi : (st.db.images.map Image.id).Nodup) :
    ((deleteDocument st id secret).1 = true ↔
      ∃ d ∈ st.db.documents, d.id = id ∧ d.modificationSecret = secret)
    ∧ ((deleteDocument st id secret).1 = false →
        (deleteDocument st id secret).2 = st)
    ∧ ((deleteDocument st id secret).1 = true →
        (deleteDocument st id secret).2.db.documents =
          st.db.documents.filter (fun d => !(d.id == id))
        ∧ (deleteDocument st id secret).2.db.images =
          st.db.images.filter (fun i => !(i.documentId == id))
        ∧ (deleteDocument st id secret).2.bucket =
          st.bucket.filter (fun e => !(st.db.images.any
            (fun i => i.documentId == id && i.id == e.1)))) := by
  unfold deleteDocument
  cases hfind : st.db.documents.find? (fun d => d.id == id) with
  | none =>
    have hnone : ∀ d ∈ st.db.documents, ¬(d.id = id ∧ d.modificationSecret = secret) := by
      intro d hdm hcon
      have := List.find?_eq_none.mp hfind d hdm
      simp [hcon.1] at this
    refine ⟨?_, ?_, ?_⟩
    · simp only [Bool.false_eq_true, false_iff]
      intro hcon
      obtain ⟨d, hdm, hrest⟩ := hcon
      exact hnone d hdm hrest
    · intro _
      rfl
    · intro hcon
      simp at hcon
  | some d0 =>
    have hd0mem : d0 ∈ st.db.documents := List.mem_of_find?_eq_some hfind
    have hd0id : d0.id = id := by
      have := List.find?_some hfind
      simpa using this
    by_cases hsec : d0.modificationSecret = secret
    · have hsecb : (d0.modificationSecret == secret) = true := by simp [hsec]
      simp only [hsecb, if_true]
      refine ⟨?_, ?_, ?_⟩
      · simp only [true_iff]
        exact ⟨d0, hd0mem, hd0id, hsec⟩
      · intro hcon
        simp at hcon
      · intro _
        rw [cascadeDeleteDocument_spec st id hi]
        refine ⟨?_, rfl, rfl⟩
        exact removeFirstMatch_eq_filter Document.id id hd
    · have hsecb : (d0.modificationSecret == secret) = false := by simp [hsec]
      simp only [hsecb, Bool.false_eq_true, if_false]
      refine ⟨?_, ?_, ?_⟩
      · simp only [Bool.false_eq_true, false_iff]
        intro hcon
        obtain ⟨d, hdm, hid, hsec2⟩ := hcon
        have hdd0 : d = d0 :=
          List.inj_on_of_nodup_map hd hdm hd0mem (by rw [hid, hd0id])
        rw [hdd0] at hsec2
        exact hsec hsec2
      · intro _
        trivial
      · intro hcon
        simp at hcon

/-- Witness for C1 at a concrete state: one document with one image and its
bucket object, deleted with the right secret. -/
theorem c1_deleteDocument_spec_witness :
    (((({ db := { documents := [docA], images := [imgA] },
          bucket := [(imgA.id, [7])] } : AppState)).db.documents.map
            Document.id).Nodup)
    ∧ ((deleteDocument
          { db := { documents := [docA], images := [imgA] },
            bucket := [(imgA.id, [7])] } docA.id "s1").1 = true ↔
        ∃ d ∈ [docA], d.id = docA.id ∧ d.modificationSecret = "s1") :=
  ⟨by decide,
    (c1_deleteDocument_spec
      { db := { documents := [docA], images := [imgA] },
        bucket := [(imgA.id, [7])] } docA.id "s1"
      (by decide) (by decide)).1⟩

/-- Folding the document cascade over a list of documents (ids being row
keys, hence unique) removes exactly the rows with those ids, the image rows
referencing them, and the bucket objects of those images. -/
theorem sweep_fold (ds : List Document) :
    ∀ st : AppState,
      (st.db.documents.map Document.id).Nodup →
      (st.db.images.map Image.id).Nodup →
      ds.foldl (fun acc d => cascadeDeleteDocument acc d.id) st =
        { db := { documents := st.db.documents.filter
                    (fun x => !((ds.map Document.id).contains x.id)),
                  images := st.db.images.filter
                    (fun i => !((ds.map Document.id).contains i.documentId)) },
          bucket := st.bucket.filter
            (fun e => !(st.db.images.any
              (fun i => (ds.map Document.id).contains i.documentId
                && i.id == e.1))) } := by
  induction ds with
  | nil =>
    intro st hd hi
    have hany : ∀ l : List Image, (l.any fun i => false) = false := by
      intro l
      simp
    simp [hany]
  | cons c cs ih =>
    intro st hd hi
    rw [List.foldl_cons, cascadeDeleteDocument_spec st c.id hi,
      removeFirstMatch_eq_filter Document.id c.id hd]
    have hd1 : ((st.db.documents.filter
        (fun x => !(x.id == c.id))).map Document.id).Nodup :=
      List.Nodup.sublist (List.Sublist.map Document.id (List.filter_sublist _)) hd
    have hi1 : ((st.db.images.filter
        (fun i => !(i.documentId == c.id))).map Image.id).Nodup :=
      List.Nodup.sublist (List.Sublist.map Image.id (List.filter_sublist _)) hi
    rw [ih _ hd1 hi1]
    simp only [List.map_cons]
    congr 1
    · congr 1
      · rw [List.filter_filter]
        apply List.filter_congr
        intro x hx
        have hb : (x.id == c.id) = decide (x.id = c.id) := by
          by_cases h : x.id = c.id <;> simp [h]
        simp [List.contains_cons, Bool.not_or, Bool.and_comm, hb]
      · rw [List.filter_filter]
        apply List.filter_congr
        intro x hx
        have hb : (x.documentId == c.id) = decide (x.documentId = c.id) := by
          by_cases h : x.documentId = c.id <;> simp [h]
        simp [List.contains_cons, Bool.not_or, Bool.and_comm, hb]
    · rw [List.filter_filter]
      apply List.filter_congr
      intro e he
      have key :
          ((st.db.images.filter (fun i => !(i.documentId == c.id))).any
              (fun i => (cs.map Document.id).contains i.documentId
                && i.id == e.1)
            || st.db.images.any
              (fun i => (i.documentId == c.id) && i.id == e.1)) =
          st.db.images.any
            (fun i => ((i.documentId == c.id)
              || (cs.map Document.id).contains i.documentId) && i.id == e.1) := by
        apply bool_eq_of_iff
        simp only [Bool.or_eq_true, List.any_eq_true, List.mem_filter,
          Bool.and_eq_true, Bool.not_eq_true']
        constructor
        · rintro (⟨i, ⟨him, hne⟩, hcs, hid⟩ | ⟨i, him, hdoc, hid⟩)
          · exact ⟨i, him, Or.inr hcs, hid⟩
          · exact ⟨i, him, Or.inl hdoc, hid⟩
        · rintro ⟨i, him, hdisj, hid⟩
          cases hdisj with
          | inl h => exact Or.inr ⟨i, him, h, hid⟩
          | inr h =>
            by_cases hc : (i.documentId == c.id) = true
            · exact Or.inr ⟨i, him, hc, hid⟩
            · exact Or.inl ⟨i, ⟨him, by simp [Bool.not_eq_true'] at hc ⊢; exact hc⟩, h, hid⟩
      simp only [List.contains_cons]
      rw [← key, Bool.not_or]

/-- C2: one run of `deleteOldDocuments` removes every document whose
`lastAccessedAt` is strictly older than the cutoff together with all Images
whose `documentId` references it (and their object-storage entries), and
leaves every document not older than the cutoff present with all fields
unchanged (the survivors list is a filter of the original rows).  Ids are
row keys, so both tables are assumed key-unique. -/
theorem c2_deleteOldDocuments_spec (st : AppState) (cutoff : Int)
    (hd : (st.db.documents.map Document.id).Nodup)
    (hi : (st.db.images.map Image.id).Nodup) :
    (deleteOldDocuments st cutoff).db.documents =
      st.db.documents.filter (fun d => !(decide (d.lastAccessedAt < cutoff)))
    ∧ (deleteOldDocuments st cutoff).db.images =
      st.db.images.filter (fun i =>
        !(((st.db.documents.filter
            (fun d => decide (d.lastAccessedAt < cutoff))).map
              Document.id).contains i.documentId))
    ∧ (deleteOldDocuments st cutoff).bucket =
      st.bucket.filter (fun e =>
        !(st.db.images.any (fun i =>
          ((st.db.documents.filter
            (fun d => decide (d.lastAccessedAt < cutoff))).map
              Document.id).contains i.documentId && i.id == e.1))) := by
  unfold deleteOldDocuments
  have hold : documentFindMany st.db (some (docWhereLastAccessedBefore cutoff)) none =
      st.db.documents.filter (fun d => decide (d.lastAccessedAt < cutoff)) := by
    unfold documentFindMany
    simp only [applyOrderBy]
    apply List.filter_congr
    intro d _
    simp [matchesFilter, matchesEntries_docWhereLastAccessedBefore]
  rw [hold]
  dsimp only
  rw [sweep_fold _ _ hd hi]
  refine ⟨?_, rfl, rfl⟩
  apply List.filter_congr
  intro x hx
  apply congrArg
  apply bool_eq_of_iff
  constructor
  · intro hc
    have hmem : x.id ∈ (st.db.documents.filter
        (fun d => decide (d.lastAccessedAt < cutoff))).map Document.id := by
      simpa using hc
    obtain ⟨d, hdmem, hdid⟩ := List.mem_map.mp hmem
    obtain ⟨hdm, hdold⟩ := List.mem_filter.mp hdmem
    have hdx : d = x := List.inj_on_of_nodup_map hd hdm hx hdid
    rw [← hdx]
    exact hdold
  · intro hold2
    have hmem : x.id ∈ (st.db.documents.filter
        (fun d => decide (d.lastAccessedAt < cutoff))).map Document.id :=
      List.mem_map_of_mem Document.id (List.mem_filter.mpr ⟨hx, hold2⟩)
    simpa using hmem

/-- Witness for C2 at a concrete state: one stale document (with an image
and its bucket object) swept by a later cutoff. -/
theorem c2_deleteOldDocuments_spec_witness :
    (((({ db := { documents := [docA], images := [imgA] },
          bucket := [(imgA.id, [7])] } : AppState)).db.images.map
            Image.id).Nodup)
    ∧ (deleteOldDocuments
        { db := { documents := [docA], images := [imgA] },
          bucket := [(imgA.id, [7])] } 1).db.documents =
      [docA].filter (fun d => !(decide (d.lastAccessedAt < 1))) :=
  ⟨by decide,
    (c2_deleteOldDocuments_spec
      { db := { documents := [docA], images := [imgA] },
        bucket := [(imgA.id, [7])] } 1 (by decide) (by decide)).1⟩

/-- C7: on a malformed (non-UUID-shaped) document identifier, every lookup
fails soft: `fetchDocument` returns `none`, `isValidModificationSecret`
returns false, and `updateDocument` and `updateLastAccessedAt` return false
with the store untouched.  All four are total functions of the embedding, so
no exception can escape them on malformed input. -/
theorem c7_malformed_id_fails_soft (s : PrismaState) (id secret : String)
    (d : Option (List Nat)) (now : Int)
    (h : isValidUuid id = false) :
    fetchDocument s id = none
    ∧ isValidModificationSecret s id secret = false
    ∧ updateDocument s id d now = (false, s)
    ∧ updateLastAccessedAt s id now = (false, s) := by
  refine ⟨?_, ?_, ?_, ?_⟩
  · unfold fetchDocument
    rw [h]
    simp
  · unfold isValidModificationSecret
    rw [h]
    simp
  · unfold updateDocument
    rw [h]
    simp
  · unfold updateLastAccessedAt
    rw [h]
    simp

/-- Witness for C7 at the malformed identifier `invalid` from the tests. -/
theorem c7_malformed_id_fails_soft_witness :
    isValidUuid "invalid" = false
    ∧ fetchDocument { documents := [docA], images := [imgA] } "invalid" = none :=
  ⟨by decide,
    (c7_malformed_id_fails_soft { documents := [docA], images := [imgA] }
      "invalid" "x" none 3 (by decide)).1⟩

/-- C3: an upload-image request whose supplied modificationSecret does not
equal the stored secret of the target document is answered with 403, no
Image row is created, no object is written to storage, and the state after
the request equals the state before. -/
theorem c3_upload_wrong_secret_rejected (st : AppState) (id secret : String)
    (file : UploadFile) (now : Int) (freshId : String)
    (h : ∀ d ∈ st.db.documents, d.id = id → d.modificationSecret ≠ secret) :
    (handleUploadImageRequest st id secret file now freshId).1.status = 403
    ∧ (handleUploadImageRequest st id secret file now freshId).2 = st
    ∧ (handleUploadImageRequest st id secret file now freshId).2.db.images =
        st.db.images
    ∧ (handleUploadImageRequest st id secret file now freshId).2.bucket =
        st.bucket := by
  have hvalid : isValidModificationSecret st.db id secret = false := by
    unfold isValidModificationSecret
    by_cases hu : isValidUuid id = true
    · rw [hu]
      simp only [if_true]
      cases hff : documentFindFirst st.db (some (docWhereId id)) with
      | none => rfl
      | some d0 =>
        have hmem : d0 ∈ st.db.documents := by
          unfold documentFindFirst at hff
          exact List.mem_of_find?_eq_some hff
        have hid : d0.id = id := by
          unfold documentFindFirst at hff
          have := List.find?_some hff
          simpa [matchesFilter, matchesEntries_docWhereId] using this
        have := h d0 hmem hid
        simp [this]
    · have hu' : isValidUuid id = false := by
        cases hvv : isValidUuid id
        · rfl
        · exact absurd hvv hu
      rw [hu']
      simp
  unfold handleUploadImageRequest
  rw [hvalid]
  exact ⟨rfl, rfl, rfl, rfl⟩

/-- The concrete state used by the C3 witness. -/
def stC3 : AppState :=
  { db := { documents := [docA], images := [] }, bucket := [] }

/-- The concrete upload used by the C3 witness. -/
def fileC3 : UploadFile :=
  { mimetype := "image/png", originalFilename := "t.png", bytes := [1] }

/-- Witness for C3: uploading against the stored document with a wrong
secret. -/
theorem c3_upload_wrong_secret_rejected_witness :
    (∀ d ∈ stC3.db.documents, d.id = docA.id → d.modificationSecret ≠ "wrong")
    ∧ (handleUploadImageRequest stC3 docA.id "wrong" fileC3
        9 "fresh-id").1.status = 403 :=
  ⟨by decide,
    (c3_upload_wrong_secret_rejected stC3 docA.id "wrong" fileC3
      9 "fresh-id" (by decide)).1⟩

/-- C9: a successful get-image request — the id resolves to a stored image
and its bytes are in the bucket — is answered with status 200, the
`Content-Type` header equal to the stored mimetype, the
`Content-Disposition` header equal to `inline; filename=` followed by the
stored name, and the image bytes as the body. -/
theorem c9_get_image_success (st : AppState) (i : String) (img : Image)
    (bytes : List Nat)
    (hu : isValidUuid i = true)
    (hfind : st.db.images.find? (fun im => im.id == i) = some img)
    (hbytes : st.bucket.lookup img.id = some bytes) :
    (handleGetImageRequest st (some i)).status = 200
    ∧ (handleGetImageRequest st (some i)).headers =
        [("Content-Type", img.mimetype),
         ("Content-Disposition", "inline; filename=" ++ img.name)]
    ∧ (handleGetImageRequest st (some i)).bodyBytes = bytes := by
  have hget : getImage st.db (some i) = some img := by
    show (if isValidUuid i = true
        then imageFindFirst st.db (some (imgWhereId i)) else none) = some img
    rw [hu]
    simp only [if_true]
    unfold imageFindFirst
    have hfun : (fun im : Image => matchesFilter im.toItem (some (imgWhereId i))) =
        (fun im : Image => im.id == i) := by
      funext im
      simp [matchesFilter, matchesEntries_imgWhereId]
    rw [hfun, hfind]
  unfold handleGetImageRequest
  rw [hget]
  dsimp only
  rw [hbytes]
  exact ⟨rfl, rfl, rfl⟩

/-- Witness for C9 at a concrete stored image and bucket object. -/
theorem c9_get_image_success_witness :
    isValidUuid imgA.id = true
    ∧ (handleGetImageRequest
        { db := { documents := [docA], images := [imgA] },
          bucket := [(imgA.id, [3, 4])] } (some imgA.id)).headers =
      [("Content-Type", imgA.mimetype),
       ("Content-Disposition", "inline; filename=" ++ imgA.name)] :=
  ⟨by decide,
    (c9_get_image_success
      { db := { documents := [docA], images := [imgA] },
        bucket := [(imgA.id, [3, 4])] } imgA.id imgA [3, 4]
      (by decide) (by decide) (by decide)).2.1⟩

/-- The characters after the last dot are unaffected by prepending more
characters when a dot is already present. -/
theorem extSuffix_append {l2 : List Char} {e : List Char}
    (h : extSuffix l2 = some e) (l1 : List Char) :
    extSuffix (l1 ++ l2) = some e := by
  induction l1 with
  | nil => simpa using h
  | cons c cs ih =>
    show extSuffix (c :: (cs ++ l2)) = some e
    rw [extSuffix, ih]

/-- Appending `.png` to any base name yields the extension `.png`. -/
theorem extOf_append_png (base : String) : extOf (base ++ ".png") = ".png" := by
  have hdata : (base ++ ".png").toList = base.toList ++ ".png".toList := by
    simp [String.toList, String.data_append]
  have hpng : extSuffix ".png".toList = some ['p', 'n', 'g'] := by decide
  unfold extOf
  rw [hdata, extSuffix_append hpng]

/-- C5 counterexample: the claim also says the stored name is "never the
user-supplied name itself", but uploading a file literally named
`image.png` stores it under the very same name `image.png`. -/
theorem c5_counterexample :
    ((createImage { documents := [docA], images := [] } docA.id "image/png"
        "image.png" 0 "img-1").1).name = "image.png" := by decide

/-- C5 (amended): `createImage` persists and returns an Image whose stored
name is the fixed base name `image` plus the extension of the original
filename (any original `*.png` is stored as `image.png`); the stored name
coincides with the user-supplied one exactly when that name is already the
fixed base name plus its extension. -/
theorem c5_createImage_anonymized_name (s : PrismaState)
    (docId mime orig : String) (now : Int) (fid : String) :
    ((createImage s docId mime orig now fid).1).name = "image" ++ extOf orig
    ∧ ((createImage s docId mime orig now fid).2).images =
        s.images ++ [(createImage s docId mime orig now fid).1]
    ∧ ∀ base : String,
        ((createImage s docId mime (base ++ ".png") now fid).1).name =
          "image.png" := by
  refine ⟨rfl, rfl, ?_⟩
  intro base
  show "image" ++ extOf (base ++ ".png") = "image.png"
  rw [extOf_append_png]
  decide

/-- The `AND` helper is `List.all` over the sub-filters. -/
theorem allWheres_eq_all (it : Item) (ws : List (List Clause)) :
    allWheres it ws = ws.all (fun w => matchesEntries it w) := by
  induction ws with
  | nil => rfl
  | cons w ws ih => rw [allWheres, List.all_cons, ih]

/-- The `OR` helper is `List.any` over the sub-filters. -/
theorem anyWheres_eq_any (it : Item) (ws : List (List Clause)) :
    anyWheres it ws = ws.any (fun w => matchesEntries it w) := by
  induction ws with
  | nil => rfl
  | cons w ws ih => rw [anyWheres, List.any_cons, ih]

/-- C6: the store's filter evaluator satisfies the spec's algebra — an
absent or empty filter matches every record; `AND` matches iff every
sub-filter matches; `OR` iff some sub-filter matches; `NOT` iff its
sub-filter does not; a plain (non-relation) field key is JS strict equality
against the stored value (shown for string and null values, the only
modelled values strict equality can relate); `lt`/`gt` objects on a `Date`
field are the strict timestamp comparisons. -/
theorem c6_filter_semantics :
    (∀ it : Item, matchesFilter it none = true ∧ matchesFilter it (some []) = true)
    ∧ (∀ (it : Item) (ws : List (List Clause)),
        matchesClause it (.andC ws) = ws.all (fun w => matchesEntries it w))
    ∧ (∀ (it : Item) (ws : List (List Clause)),
        matchesClause it (.orC ws) = ws.any (fun w => matchesEntries it w))
    ∧ (∀ (it : Item) (w : List Clause),
        matchesClause it (.notC w) = !(matchesEntries it w))
    ∧ (∀ (it : Item) (k s : String),
        k ≠ "images" → k ≠ "document" →
        (matchesClause it (.field k (.eqV (.vStr s))) = true ↔
          getField it k = some (.vStr s)))
    ∧ (∀ (it : Item) (k : String),
        k ≠ "images" → k ≠ "document" →
        (matchesClause it (.field k (.eqV .vNull)) = true ↔
          getField it k = some .vNull))
    ∧ (∀ (it : Item) (k : String) (dv x : Int),
        k ≠ "images" → k ≠ "document" →
        getField it k = some (.vDate x) →
        (matchesClause it (.field k (.ltD (.vDate dv))) = true ↔ x < dv)
        ∧ (matchesClause it (.field k (.gtD (.vDate dv))) = true ↔ x > dv)) := by
  refine ⟨?_, ?_, ?_, ?_, ?_, ?_, ?_⟩
  · intro it
    exact ⟨rfl, rfl⟩
  · intro it ws
    rw [matchesClause, allWheres_eq_all]
  · intro it ws
    rw [matchesClause, anyWheres_eq_any]
  · intro it w
    rfl
  · intro it k s h1 h2
    have hk1 : (k == "images") = false := by simp [h1]
    have hk2 : (k == "document") = false := by simp [h2]
    rw [matchesClause, evalFieldCond, hk1, hk2]
    simp only [Bool.or_self, Bool.false_or, if_false]
    cases hf : getField it k with
    | none => simp [jsEqOpt]
    | some v =>
      cases v with
      | vStr a => simp [jsEqOpt, jsEq]
      | vNull => simp [jsEqOpt, jsEq]
      | vDate t => simp [jsEqOpt, jsEq]
      | vBytes b => simp [jsEqOpt, jsEq]
  · intro it k h1 h2
    have hk1 : (k == "images") = false := by simp [h1]
    have hk2 : (k == "document") = false := by simp [h2]
    rw [matchesClause, evalFieldCond, hk1, hk2]
    simp only [Bool.or_self, Bool.false_or, if_false]
    cases hf : getField it k with
    | none => simp [jsEqOpt]
    | some v =>
      cases v with
      | vStr a => simp [jsEqOpt, jsEq]
      | vNull => simp [jsEqOpt, jsEq]
      | vDate t => simp [jsEqOpt, jsEq]
      | vBytes b => simp [jsEqOpt, jsEq]
  · intro it k dv x h1 h2 hf
    have hk1 : (k == "images") = false := by simp [h1]
    have hk2 : (k == "document") = false := by simp [h2]
    constructor
    · rw [matchesClause]
      simp only [evalFieldCond, hk1, hk2, hf]
      simp
    · rw [matchesClause]
      simp only [evalFieldCond, hk1, hk2, hf]
      simp

/-- Witness for C6: the equality clause evaluated at a concrete record. -/
theorem c6_filter_semantics_witness :
    ("name" : String) ≠ "images"
    ∧ (matchesClause [("name", Value.vStr "a")]
        (Clause.field "name" (.eqV (.vStr "a"))) = true ↔
      getField [("name", Value.vStr "a")] "name" = some (.vStr "a")) :=
  ⟨by decide,
    c6_filter_semantics.2.2.2.2.1 [("name", Value.vStr "a")] "name" "a"
      (by decide) (by decide)⟩

section SortLemmas

variable {α : Type}

/-- Stable insertion permutes: the result holds the new element and the old
list. -/
theorem stableInsert_perm (cmp : α → α → Int) (x : α) (l : List α) :
    (stableInsert cmp x l).Perm (x :: l) := by
  induction l with
  | nil => exact List.Perm.refl _
  | cons y ys ih =>
    rw [stableInsert]
    by_cases h : cmp x y > 0
    · rw [if_pos h]
      exact (List.Perm.cons y ih).trans (List.Perm.swap x y ys)
    · rw [if_neg h]

/-- The stable sort permutes its input. -/
theorem stableSort_perm (cmp : α → α → Int) (l : List α) :
    (stableSort cmp l).Perm l := by
  induction l with
  | nil => exact List.Perm.refl _
  | cons x xs ih =>
    show (stableInsert cmp x (stableSort cmp xs)).Perm (x :: xs)
    exact (stableInsert_perm cmp x _).trans (List.Perm.cons x ih)

/-- Stable insertion keeps the list sorted for a comparator that is
antisymmetric and transitive in sign. -/
theorem stableInsert_pairwise (cmp : α → α → Int)
    (hanti : ∀ a b, 0 < cmp a b → cmp b a ≤ 0)
    (htrans : ∀ a b c, cmp a b ≤ 0 → cmp b c ≤ 0 → cmp a c ≤ 0)
    (x : α) (l : List α) (hl : l.Pairwise (fun a b => cmp a b ≤ 0)) :
    (stableInsert cmp x l).Pairwise (fun a b => cmp a b ≤ 0) := by
  induction l with
  | nil => simp [stableInsert]
  | cons y ys ih =>
    rw [List.pairwise_cons] at hl
    obtain ⟨hy, hys⟩ := hl
    rw [stableInsert]
    by_cases h : cmp x y > 0
    · rw [if_pos h]
      rw [List.pairwise_cons]
      refine ⟨?_, ih hys⟩
      intro z hz
      have hz2 : z = x ∨ z ∈ ys := by
        have := (stableInsert_perm cmp x ys).mem_iff.mp hz
        simpa using this
      cases hz2 with
      | inl he =>
        rw [he]
        exact hanti x y h
      | inr hm => exact hy z hm
    · rw [if_neg h]
      have hxy : cmp x y ≤ 0 := by omega
      rw [List.pairwise_cons]
      constructor
      · intro z hz
        rcases List.mem_cons.mp hz with he | hm
        · rw [he]
          exact hxy
        · exact htrans x y z hxy (hy z hm)
      · exact List.pairwise_cons.mpr ⟨hy, hys⟩

/-- The stable sort sorts, for a comparator that is antisymmetric and
transitive in sign. -/
theorem stableSort_pairwise (cmp : α → α → Int)
    (hanti : ∀ a b, 0 < cmp a b → cmp b a ≤ 0)
    (htrans : ∀ a b c, cmp a b ≤ 0 → cmp b c ≤ 0 → cmp a c ≤ 0)
    (l : List α) :
    (stableSort cmp l).Pairwise (fun a b => cmp a b ≤ 0) := by
  induction l with
  | nil => simp [stableSort]
  | cons x xs ih =>
    show (stableInsert cmp x (stableSort cmp xs)).Pairwise _
    exact stableInsert_pairwise cmp hanti htrans x _ ih

end SortLemmas

/-- The `createdAt asc` comparator on documents is the timestamp
difference. -/
theorem orderCmp_createdAt_asc (a b : Document) :
    orderCmp "createdAt" "asc" a.toItem b.toItem =
      a.createdAt - b.createdAt := by
  simp [orderCmp, getField, Document.toItem, List.lookup]

/-- C4: `getDocumentsByOwner` returns exactly the documents whose
`ownerExternalId` equals the given owner (a permutation of that filter of
the store), ordered by `createdAt` ascending; a null owner yields the empty
list regardless of the store contents. -/
theorem c4_getDocumentsByOwner_spec (s : PrismaState) (o : String) :
    getDocumentsByOwner s none = []
    ∧ (getDocumentsByOwner s (some o)).Perm
        (s.documents.filter (fun d => d.ownerExternalId == some o))
    ∧ (getDocumentsByOwner s (some o)).Pairwise
        (fun a b => a.createdAt ≤ b.createdAt) := by
  have hfm : getDocumentsByOwner s (some o) =
      stableSort
        (fun a b : Document => orderCmp "createdAt" "asc" a.toItem b.toItem)
        (s.documents.filter (fun d => d.ownerExternalId == some o)) := by
    show documentFindMany s (some (docWhereOwner o)) (some [("createdAt", "asc")]) = _
    unfold documentFindMany applyOrderBy
    have hfilter : s.documents.filter
        (fun d => matchesFilter d.toItem (some (docWhereOwner o))) =
        s.documents.filter (fun d => d.ownerExternalId == some o) :=
      List.filter_congr (fun d _ => by
        simp [matchesFilter, matchesEntries_docWhereOwner])
    rw [hfilter]
    rfl
  refine ⟨rfl, ?_, ?_⟩
  · rw [hfm]
    exact stableSort_perm _ _
  · rw [hfm]
    have hanti : ∀ a b : Document,
        0 < orderCmp "createdAt" "asc" a.toItem b.toItem →
        orderCmp "createdAt" "asc" b.toItem a.toItem ≤ 0 := by
      intro a b h
      rw [orderCmp_createdAt_asc] at h
      rw [orderCmp_createdAt_asc]
      omega
    have htrans : ∀ a b c : Document,
        orderCmp "createdAt" "asc" a.toItem b.toItem ≤ 0 →
        orderCmp "createdAt" "asc" b.toItem c.toItem ≤ 0 →
        orderCmp "createdAt" "asc" a.toItem c.toItem ≤ 0 := by
      intro a b c h1 h2
      rw [orderCmp_createdAt_asc] at h1 h2 ⊢
      omega
    have hp := stableSort_pairwise _ hanti htrans
      (s.documents.filter (fun d => d.ownerExternalId == some o))
    refine List.Pairwise.imp ?_ hp
    intro a b hab
    rw [orderCmp_createdAt_asc] at hab
    omega
